import Mathlib

/-!
Verification of the frame_transpiler runtime crate against its specification.

The development shallowly embeds the runtime's `EventMonitor` (from
`frame_runtime/src/event.rs`) with histories as Lean lists (front of the
list = front of the `VecDeque` = oldest entry) and callback registries as
lists of opaque callback identifiers; invoking the callbacks of a registry
is modelled by the list of (identifier, argument) pairs the operation
produces, in invocation order.  The Environment lookups of
`frame_runtime/tests/demo.rs` are embedded directly.  The generated state
machines exercised by `framec_tests` (produced by the Frame compiler at
build time) are not part of the runtime sources; where a claim depends on
them, the machine is modelled from the specification's dispatch protocol
(spec sections 4.1 and 4.2), and such definitions are marked
"Modelled from the spec".
-/

namespace FrameRt

/-- From `event.rs` `push_to_deque`: add an element to a possibly
finite-sized deque.  `deque.pop_front()` is `List.tail`, `push_back` is
appending a singleton. -/
def push_to_deque (capacity : Option Nat) (deque : List α) (elem : α) : List α :=
  match capacity with
  | some cap =>
    if 0 < cap then
      (if cap ≤ deque.length then deque.tail else deque) ++ [elem]
    else deque
  | none => deque ++ [elem]

/-- From `event.rs` `resize_deque`: the loop `while deque.len() > cap
{ deque.pop_front(); }`, written by structural recursion on the deque.
(`reserve_exact` only affects allocated capacity, not contents.) -/
def trim_front (cap : Nat) : List α → List α
  | [] => []
  | x :: xs => if cap < (x :: xs).length then trim_front cap xs else x :: xs

/-- From `event.rs` `resize_deque`: resize a possibly finite-sized deque. -/
def resize_deque (new_capacity : Option Nat) (deque : List α) : List α :=
  match new_capacity with
  | some cap => trim_front cap deque
  | none => deque

/-- From `event.rs` `new_deque`: create a possibly finite-sized deque.
`VecDeque::with_capacity` and `VecDeque::new` are both empty. -/
def new_deque (_capacity : Option Nat) : List α := []

/-- From `event.rs` `EventMonitor`: two history buffers with independent
optional capacities and three callback registries.  `E` is the type of
method instances, `T` the type of transition instances; callbacks are
identified by `Nat` registration tokens. -/
structure EventMonitor (E T : Type) where
  event_history_capacity : Option Nat
  transition_history_capacity : Option Nat
  event_history : List E
  transition_history : List T
  event_sent_callbacks : List Nat
  event_handled_callbacks : List Nat
  transition_callbacks : List Nat
deriving DecidableEq

/-- From `event.rs` `EventMonitor::new`. -/
def EventMonitor.new (event_capacity transition_capacity : Option Nat) :
    EventMonitor E T :=
  { event_history_capacity := event_capacity
    transition_history_capacity := transition_capacity
    event_history := new_deque event_capacity
    transition_history := new_deque transition_capacity
    event_sent_callbacks := []
    event_handled_callbacks := []
    transition_callbacks := [] }

/-- From `event.rs` `EventMonitor::add_event_sent_callback`. -/
def EventMonitor.add_event_sent_callback (em : EventMonitor E T) (c : Nat) :
    EventMonitor E T :=
  { em with event_sent_callbacks := em.event_sent_callbacks ++ [c] }

/-- From `event.rs` `EventMonitor::add_event_handled_callback`. -/
def EventMonitor.add_event_handled_callback (em : EventMonitor E T) (c : Nat) :
    EventMonitor E T :=
  { em with event_handled_callbacks := em.event_handled_callbacks ++ [c] }

/-- From `event.rs` `EventMonitor::add_transition_callback`. -/
def EventMonitor.add_transition_callback (em : EventMonitor E T) (c : Nat) :
    EventMonitor E T :=
  { em with transition_callbacks := em.transition_callbacks ++ [c] }

/-- From `event.rs` `EventMonitor::event_sent`: invoke the event-sent
callbacks (second component, in invocation order); no history write. -/
def EventMonitor.event_sent (em : EventMonitor E T) (event : E) :
    EventMonitor E T × List (Nat × E) :=
  (em, em.event_sent_callbacks.map (fun c => (c, event)))

/-- From `event.rs` `EventMonitor::event_handled`: push the event into the
event history with eviction, then invoke the event-handled callbacks. -/
def EventMonitor.event_handled (em : EventMonitor E T) (event : E) :
    EventMonitor E T × List (Nat × E) :=
  ({ em with
      event_history :=
        push_to_deque em.event_history_capacity em.event_history event },
   em.event_handled_callbacks.map (fun c => (c, event)))

/-- From `event.rs` `EventMonitor::transition_occurred`: push the transition
into the transition history with eviction, then invoke the transition
callbacks. -/
def EventMonitor.transition_occurred (em : EventMonitor E T) (transition : T) :
    EventMonitor E T × List (Nat × T) :=
  ({ em with
      transition_history :=
        push_to_deque em.transition_history_capacity em.transition_history
          transition },
   em.transition_callbacks.map (fun c => (c, transition)))

/-- From `event.rs` `EventMonitor::clear_event_history`. -/
def EventMonitor.clear_event_history (em : EventMonitor E T) :
    EventMonitor E T :=
  { em with event_history := new_deque em.event_history_capacity }

/-- From `event.rs` `EventMonitor::clear_transition_history`. -/
def EventMonitor.clear_transition_history (em : EventMonitor E T) :
    EventMonitor E T :=
  { em with transition_history := new_deque em.transition_history_capacity }

/-- From `event.rs` `EventMonitor::set_event_history_capacity`. -/
def EventMonitor.set_event_history_capacity (em : EventMonitor E T)
    (capacity : Option Nat) : EventMonitor E T :=
  { em with
      event_history := resize_deque capacity em.event_history
      event_history_capacity := capacity }

/-- From `event.rs` `EventMonitor::set_transition_history_capacity`. -/
def EventMonitor.set_transition_history_capacity (em : EventMonitor E T)
    (capacity : Option Nat) : EventMonitor E T :=
  { em with
      transition_history := resize_deque capacity em.transition_history
      transition_history_capacity := capacity }

/-- From `event.rs` `EventMonitor::last_transition`: `VecDeque::back` is the
most recently pushed element, i.e. `List.getLast?`. -/
def EventMonitor.last_transition (em : EventMonitor E T) : Option T :=
  em.transition_history.getLast?

/-- One public mutating operation of the `EventMonitor`, for stating
invariants over arbitrary operation sequences. -/
inductive MonOp (E T : Type)
  | addSentCallback (c : Nat)
  | addHandledCallback (c : Nat)
  | addTransitionCallback (c : Nat)
  | eventSent (e : E)
  | eventHandled (e : E)
  | transitionOccurred (t : T)
  | clearEventHistory
  | clearTransitionHistory
  | setEventCapacity (c : Option Nat)
  | setTransitionCapacity (c : Option Nat)

/-- Effect of one `MonOp` on the monitor state. -/
def MonOp.step : MonOp E T → EventMonitor E T → EventMonitor E T
  | MonOp.addSentCallback c, em => em.add_event_sent_callback c
  | MonOp.addHandledCallback c, em => em.add_event_handled_callback c
  | MonOp.addTransitionCallback c, em => em.add_transition_callback c
  | MonOp.eventSent e, em => (em.event_sent e).1
  | MonOp.eventHandled e, em => (em.event_handled e).1
  | MonOp.transitionOccurred t, em => (em.transition_occurred t).1
  | MonOp.clearEventHistory, em => em.clear_event_history
  | MonOp.clearTransitionHistory, em => em.clear_transition_history
  | MonOp.setEventCapacity c, em => em.set_event_history_capacity c
  | MonOp.setTransitionCapacity c, em => em.set_transition_history_capacity c

/-- Run a sequence of monitor operations. -/
def runOps (ops : List (MonOp E T)) (em : EventMonitor E T) : EventMonitor E T :=
  ops.foldl (fun m o => o.step m) em

/-- The bounded-history invariant: each stream with a finite capacity holds
at most that many entries. -/
def monInv (em : EventMonitor E T) : Prop :=
  (∀ k, em.event_history_capacity = some k → em.event_history.length ≤ k) ∧
  (∀ k, em.transition_history_capacity = some k →
    em.transition_history.length ≤ k)

/-- Handle a whole sequence of events (history effect only). -/
def handle_all (es : List E) (em : EventMonitor E T) : EventMonitor E T :=
  es.foldl (fun m e => (m.event_handled e).1) em

/-- Record a whole sequence of transitions (history effect only). -/
def transition_all (ts : List T) (em : EventMonitor E T) : EventMonitor E T :=
  ts.foldl (fun m t => (m.transition_occurred t).1) em

/-- A call to `event_sent` or `event_handled`, for stating properties of
arbitrary interleavings of the two. -/
inductive SHCall (E : Type)
  | sendEv (e : E)
  | handleEv (e : E)

/-- Run a sequence of `event_sent`/`event_handled` calls, collecting for
each call the list of callback invocations it performs. -/
def run_sh : List (SHCall E) → EventMonitor E T →
    EventMonitor E T × List (List (Nat × E))
  | [], em => (em, [])
  | SHCall.sendEv e :: rest, em =>
    let p := em.event_sent e
    let q := run_sh rest p.1
    (q.1, p.2 :: q.2)
  | SHCall.handleEv e :: rest, em =>
    let p := em.event_handled e
    let q := run_sh rest p.1
    (q.1, p.2 :: q.2)

/-- Modelled from the spec: the states of the cascading-transition machine
of spec section 8 item 5 (the generated `EventMonitorSm` is produced by the
Frame compiler at build time and is not part of the runtime sources). -/
inductive CState
  | A
  | B
  | C
  | D
deriving DecidableEq

/-- Modelled from the spec: the events of the cascading machine — the
triggering interface events plus the implicit enter/exit sub-events. -/
inductive CEvent
  | trigger
  | trigger2
  | enterEv (s : CState)
  | exitEv (s : CState)
deriving DecidableEq

/-- An event-sent or event-handled notification, as observed by the
registered callbacks. -/
inductive Notif
  | sentN (e : CEvent)
  | handledN (e : CEvent)
deriving DecidableEq

/-- Modelled from the spec: what a state's handler does with an interface
event — nothing, a full `Transition`, or a `ChangeState`. -/
inductive HandlerAct
  | noAct
  | transitionTo (t : CState)
  | changeStateTo (t : CState)

/-- Modelled from the spec: the cascade A → B → C → D of spec section 8
item 5; `trigger` causes a transition from each of A, B, C, and `trigger2`
causes the final change-state D → A. -/
def cascadeHandler : CState → CEvent → HandlerAct
  | CState.A, CEvent.trigger => HandlerAct.transitionTo CState.B
  | CState.B, CEvent.trigger => HandlerAct.transitionTo CState.C
  | CState.C, CEvent.trigger => HandlerAct.transitionTo CState.D
  | CState.D, CEvent.trigger2 => HandlerAct.changeStateTo CState.A
  | _, _ => HandlerAct.noAct

/-- Modelled from the spec: each of B, C, D has an enter handler that
immediately dispatches the next triggering event. -/
def enterDispatch : CState → Option CEvent
  | CState.B => some CEvent.trigger
  | CState.C => some CEvent.trigger
  | CState.D => some CEvent.trigger2
  | CState.A => none

/-- Modelled from the spec: the dispatch protocol of spec section 4.1.
Dispatching event `e` in state `st` notifies `sent e`, runs the handler's
work (exit sub-event, pointer swap, enter sub-event for a `Transition`;
bare pointer swap for a `ChangeState`; for enter sub-events, any event the
enter handler itself dispatches — full recursion), then notifies
`handled e`.  Fuel bounds the recursion depth; the result is the final
state and the notification trace in real-time order. -/
def dispatch : Nat → CState → CEvent → Option (CState × List Notif)
  | 0, _, _ => none
  | fuel + 1, st, e =>
    let inner : Option (CState × List Notif) :=
      match e with
      | CEvent.enterEv s =>
        match enterDispatch s with
        | some e2 => dispatch fuel st e2
        | none => some (st, [])
      | CEvent.exitEv _ => some (st, [])
      | CEvent.trigger =>
        match cascadeHandler st CEvent.trigger with
        | HandlerAct.noAct => some (st, [])
        | HandlerAct.transitionTo tgt =>
          match dispatch fuel st (CEvent.exitEv st) with
          | none => none
          | some p1 =>
            match dispatch fuel tgt (CEvent.enterEv tgt) with
            | none => none
            | some p2 => some (p2.1, p1.2 ++ p2.2)
        | HandlerAct.changeStateTo tgt => some (tgt, [])
      | CEvent.trigger2 =>
        match cascadeHandler st CEvent.trigger2 with
        | HandlerAct.noAct => some (st, [])
        | HandlerAct.transitionTo tgt =>
          match dispatch fuel st (CEvent.exitEv st) with
          | none => none
          | some p1 =>
            match dispatch fuel tgt (CEvent.enterEv tgt) with
            | none => none
            | some p2 => some (p2.1, p1.2 ++ p2.2)
        | HandlerAct.changeStateTo tgt => some (tgt, [])
    Option.map
      (fun r => (r.1, Notif.sentN e :: r.2 ++ [Notif.handledN e])) inner

/-- The sequence of event-sent notifications in a trace. -/
def sentOf (trace : List Notif) : List CEvent :=
  trace.filterMap (fun n =>
    match n with
    | Notif.sentN e => some e
    | Notif.handledN _ => none)

/-- The sequence of event-handled notifications in a trace. -/
def handledOf (trace : List Notif) : List CEvent :=
  trace.filterMap (fun n =>
    match n with
    | Notif.handledN e => some e
    | Notif.sentN _ => none)

/-- Modelled from the spec: a live `StateInstance` pairs a state descriptor
with its bound construction-argument and variable Environments (here simple
association lists of integer-valued names, as in the tested machines). -/
structure StateInstance (S : Type) where
  info : S
  args : List (String × Int)
  vars : List (String × Int)
deriving DecidableEq

/-- An exit or enter notification produced by a pop transition. -/
inductive StackNotif (S : Type)
  | exitN (s : S)
  | enterN (s : S)
deriving DecidableEq

/-- Modelled from the spec: a machine with a state stack — the current
`StateInstance`, the LIFO stack of saved instances, and the tape of
exit/enter notifications fired so far (the generated `StateStack` machine
is produced by the Frame compiler at build time and is not part of the
runtime sources). -/
structure StackMachine (S : Type) where
  current : StateInstance S
  stack : List (StateInstance S)
  tape : List (StackNotif S)
deriving DecidableEq

/-- Modelled from the spec (section 4.2): `push()` duplicates a reference to
the current `StateInstance` onto the stack top; current state unchanged. -/
def StackMachine.push (m : StackMachine S) : StackMachine S :=
  { m with stack := m.current :: m.stack }

/-- Modelled from the spec (section 4.2): `pop()` pops the top entry and
installs it as current via the full `Transition` protocol — an exit
notification for the state being left and an enter notification for the
restored state; the restored instance's bound Environments are reused
as-is.  Popping an empty stack is modelled as a no-op. -/
def StackMachine.pop (m : StackMachine S) : StackMachine S :=
  match m.stack with
  | [] => m
  | s :: rest =>
    { current := s
      stack := rest
      tape := m.tape ++ [StackNotif.exitN m.current.info,
        StackNotif.enterN s.info] }

/-- Modelled from the spec (section 4.2): `pop_change()` performs the same
restoration via the `ChangeState` protocol — no exit or enter fires. -/
def StackMachine.pop_change (m : StackMachine S) : StackMachine S :=
  match m.stack with
  | [] => m
  | s :: rest => { current := s, stack := rest, tape := m.tape }

/-- Iterated pops. -/
def StackMachine.popN : Nat → StackMachine S → StackMachine S
  | 0, m => m
  | n + 1, m => StackMachine.popN n m.pop

/-- Modelled from the spec: the shared empty Environment answers "not
found" for every name (`EMPTY` of the runtime's environment module, whose
source file is not in the crate snapshot). -/
def EMPTY_lookup (_name : String) : Option Int := none

/-- From `tests/demo.rs` `IncArgs` (all demo values are `i32`). -/
structure IncArgs where
  arg : Int
deriving DecidableEq

/-- From `tests/demo.rs` `impl Environment for IncArgs`. -/
def IncArgs.lookup (a : IncArgs) (name : String) : Option Int :=
  if name = "arg" then some a.arg else none

/-- From `tests/demo.rs` `FooEnterArgs`. -/
structure FooEnterArgs where
  init : Int
deriving DecidableEq

/-- From `tests/demo.rs` `impl Environment for FooEnterArgs`. -/
def FooEnterArgs.lookup (a : FooEnterArgs) (name : String) : Option Int :=
  if name = "init" then some a.init else none

/-- From `tests/demo.rs` `FooExitArgs`. -/
structure FooExitArgs where
  done : Int
deriving DecidableEq

/-- From `tests/demo.rs` `impl Environment for FooExitArgs`. -/
def FooExitArgs.lookup (a : FooExitArgs) (name : String) : Option Int :=
  if name = "done" then some a.done else none

/-- From `tests/demo.rs` `BarEnterArgs`. -/
structure BarEnterArgs where
  start : Int
deriving DecidableEq

/-- From `tests/demo.rs` `impl Environment for BarEnterArgs`. -/
def BarEnterArgs.lookup (a : BarEnterArgs) (name : String) : Option Int :=
  if name = "start" then some a.start else none

/-- From `tests/demo.rs` `BarExitArgs`. -/
structure BarExitArgs where
  «end» : Int
deriving DecidableEq

/-- From `tests/demo.rs` `impl Environment for BarExitArgs`. -/
def BarExitArgs.lookup (a : BarExitArgs) (name : String) : Option Int :=
  if name = "end" then some a.«end» else none

/-- From `tests/demo.rs` `FrameEventArgs`. -/
inductive FrameEventArgs
  | noArgs
  | inc (args : IncArgs)
  | fooEnter (args : FooEnterArgs)
  | fooExit (args : FooExitArgs)
  | barEnter (args : BarEnterArgs)
  | barExit (args : BarExitArgs)
deriving DecidableEq

/-- From `tests/demo.rs` `impl Environment for FrameEventArgs`: dispatch to
the variant's own lookup; the `None` variant consults the shared empty
Environment. -/
def FrameEventArgs.lookup : FrameEventArgs → String → Option Int
  | FrameEventArgs.noArgs, name => EMPTY_lookup name
  | FrameEventArgs.inc a, name => a.lookup name
  | FrameEventArgs.fooEnter a, name => a.lookup name
  | FrameEventArgs.fooExit a, name => a.lookup name
  | FrameEventArgs.barEnter a, name => a.lookup name
  | FrameEventArgs.barExit a, name => a.lookup name

/-- The argument names each `FrameEventArgs` variant binds, read off the
match arms of the demo's `lookup` implementations. -/
def FrameEventArgs.argNames : FrameEventArgs → List String
  | FrameEventArgs.noArgs => []
  | FrameEventArgs.inc _ => ["arg"]
  | FrameEventArgs.fooEnter _ => ["init"]
  | FrameEventArgs.fooExit _ => ["done"]
  | FrameEventArgs.barEnter _ => ["start"]
  | FrameEventArgs.barExit _ => ["end"]

lemma push_to_deque_length_le (cap : Nat) (deque : List α) (elem : α)
    (h : deque.length ≤ cap) :
    (push_to_deque (some cap) deque elem).length ≤ cap := by
  unfold push_to_deque
  by_cases hc : 0 < cap
  · simp only [hc, if_true]
    by_cases hl : cap ≤ deque.length
    · simp only [hl, if_true, List.length_append, List.length_tail,
        List.length_singleton]
      omega
    · simp only [hl, if_false, List.length_append]
      simp only [List.length_cons, List.length_nil]
      omega
  · simp only [hc, if_false]
    exact h

lemma trim_front_eq_drop (cap : Nat) (l : List α) :
    trim_front cap l = l.drop (l.length - cap) := by
  induction l with
  | nil => simp [trim_front]
  | cons x xs ih =>
    by_cases h : cap < (x :: xs).length
    · have hlen : (x :: xs).length - cap = (xs.length - cap) + 1 := by
        simp only [List.length_cons] at h ⊢
        omega
      rw [trim_front, if_pos h, hlen, List.drop_succ_cons, ih]
    · have hlen : (x :: xs).length - cap = 0 := by
        simp only [List.length_cons] at h ⊢
        omega
      rw [trim_front, if_neg h, hlen, List.drop_zero]

lemma trim_front_length_le (cap : Nat) (l : List α) :
    (trim_front cap l).length ≤ cap := by
  rw [trim_front_eq_drop, List.length_drop]
  omega

lemma monInv_step (op : MonOp E T) (em : EventMonitor E T) (h : monInv em) :
    monInv (op.step em) := by
  obtain ⟨he, ht⟩ := h
  cases op with
  | addSentCallback c => exact ⟨he, ht⟩
  | addHandledCallback c => exact ⟨he, ht⟩
  | addTransitionCallback c => exact ⟨he, ht⟩
  | eventSent e => exact ⟨he, ht⟩
  | eventHandled e =>
    refine ⟨fun k hk => ?_, ht⟩
    simp only [MonOp.step, EventMonitor.event_handled] at hk ⊢
    rw [hk]
    exact push_to_deque_length_le _ _ _ (he _ hk)
  | transitionOccurred t =>
    refine ⟨he, fun k hk => ?_⟩
    simp only [MonOp.step, EventMonitor.transition_occurred] at hk ⊢
    rw [hk]
    exact push_to_deque_length_le _ _ _ (ht _ hk)
  | clearEventHistory =>
    exact ⟨fun k _ => by simp [MonOp.step, EventMonitor.clear_event_history,
      new_deque], ht⟩
  | clearTransitionHistory =>
    exact ⟨he, fun k _ => by simp [MonOp.step,
      EventMonitor.clear_transition_history, new_deque]⟩
  | setEventCapacity c =>
    refine ⟨fun k hk => ?_, ht⟩
    simp only [MonOp.step, EventMonitor.set_event_history_capacity] at hk ⊢
    subst hk
    exact trim_front_length_le _ _
  | setTransitionCapacity c =>
    refine ⟨he, fun k hk => ?_⟩
    simp only [MonOp.step, EventMonitor.set_transition_history_capacity] at hk ⊢
    subst hk
    exact trim_front_length_le _ _

lemma monInv_new (ec tc : Option Nat) :
    monInv (EventMonitor.new ec tc : EventMonitor E T) := by
  constructor
  · intro k _
    simp [EventMonitor.new, new_deque]
  · intro k _
    simp [EventMonitor.new, new_deque]

lemma monInv_runOps (ops : List (MonOp E T)) (em : EventMonitor E T)
    (h : monInv em) : monInv (runOps ops em) := by
  induction ops generalizing em with
  | nil => exact h
  | cons op rest ih => exact ih _ (monInv_step op em h)

lemma handle_all_event_history (es : List E) (em : EventMonitor E T) :
    (handle_all es em).event_history =
      es.foldl (push_to_deque em.event_history_capacity) em.event_history := by
  induction es generalizing em with
  | nil => rfl
  | cons e rest ih =>
    show (handle_all rest (em.event_handled e).1).event_history = _
    rw [ih]
    rfl

lemma transition_all_transition_history (ts : List T) (em : EventMonitor E T) :
    (transition_all ts em).transition_history =
      ts.foldl (push_to_deque em.transition_history_capacity)
        em.transition_history := by
  induction ts generalizing em with
  | nil => rfl
  | cons t rest ih =>
    show (transition_all rest (em.transition_occurred t).1).transition_history
        = _
    rw [ih]
    rfl

lemma foldl_push_to_deque_some (k : Nat) (hk : 0 < k) :
    ∀ (es hist : List α), hist.length ≤ k →
      es.foldl (push_to_deque (some k)) hist =
        (hist ++ es).drop ((hist ++ es).length - k) := by
  intro es
  induction es with
  | nil =>
    intro hist h
    have : hist.length - k = 0 := by omega
    simp [this]
  | cons e rest ih =>
    intro hist h
    rw [List.foldl_cons]
    by_cases hl : k ≤ hist.length
    · have hlen : hist.length = k := le_antisymm h hl
      cases hist with
      | nil => simp at hlen; omega
      | cons a l =>
        have hpush : push_to_deque (some k) (a :: l) e = l ++ [e] := by
          unfold push_to_deque
          simp only [hk, if_true, hl, if_true, List.tail_cons]
        rw [hpush, ih (l ++ [e]) (by
          simp only [List.length_append, List.length_singleton]
          simp only [List.length_cons] at hlen
          omega)]
        have h1 : (l ++ [e]) ++ rest = l ++ e :: rest := by
          rw [List.append_assoc, List.singleton_append]
        have h2 : (a :: l) ++ e :: rest = a :: (l ++ e :: rest) := rfl
        rw [h1, h2]
        have h3 : (a :: (l ++ e :: rest)).length - k
            = ((l ++ e :: rest).length - k) + 1 := by
          simp only [List.length_cons, List.length_append] at hlen ⊢
          omega
        rw [h3, List.drop_succ_cons]
    · have hpush : push_to_deque (some k) hist e = hist ++ [e] := by
        unfold push_to_deque
        simp only [hk, if_true, hl, if_false]
      rw [hpush, ih (hist ++ [e]) (by
        simp only [List.length_append, List.length_singleton]
        omega)]
      rw [List.append_assoc, List.singleton_append]

lemma foldl_push_to_deque_none :
    ∀ (es hist : List α), es.foldl (push_to_deque none) hist = hist ++ es := by
  intro es
  induction es with
  | nil => intro hist; simp
  | cons e rest ih =>
    intro hist
    rw [List.foldl_cons]
    show rest.foldl (push_to_deque none) (hist ++ [e]) = _
    rw [ih (hist ++ [e]), List.append_assoc, List.singleton_append]

lemma getLast?_eq_none_iff_nil (l : List α) : l.getLast? = none ↔ l = [] := by
  cases l <;> simp [List.getLast?]

/-- Claim C2: with event-history capacity `some k`, `k > 0`, after a fresh
monitor handles the event sequence `es` the event history is exactly the
most recent `min es.length k` events, oldest first (`es.drop (es.length -
k)`), and its length is at most `k` (since `es` is arbitrary this bounds
every intermediate point too); with capacity `none` the history equals the
whole handled sequence.  The same eviction rule governs
`transition_occurred` and the transition history. -/
theorem bounded_history_eviction (k : Nat) (hk : 0 < k) (es : List E)
    (ts : List T) (ec tc : Option Nat) :
    ((handle_all es (EventMonitor.new (some k) tc) :
        EventMonitor E T).event_history = es.drop (es.length - k))
  ∧ ((handle_all es (EventMonitor.new (some k) tc) :
        EventMonitor E T).event_history.length ≤ k)
  ∧ ((handle_all es (EventMonitor.new none tc) :
        EventMonitor E T).event_history = es)
  ∧ ((transition_all ts (EventMonitor.new ec (some k)) :
        EventMonitor E T).transition_history = ts.drop (ts.length - k))
  ∧ ((transition_all ts (EventMonitor.new ec (some k)) :
        EventMonitor E T).transition_history.length ≤ k)
  ∧ ((transition_all ts (EventMonitor.new ec none) :
        EventMonitor E T).transition_history = ts) := by
  have hev : (handle_all es (EventMonitor.new (some k) tc) :
      EventMonitor E T).event_history = es.drop (es.length - k) := by
    rw [handle_all_event_history]
    have := foldl_push_to_deque_some (α := E) k hk es []
      (by simp)
    simpa using this
  have htr : (transition_all ts (EventMonitor.new ec (some k)) :
      EventMonitor E T).transition_history = ts.drop (ts.length - k) := by
    rw [transition_all_transition_history]
    have := foldl_push_to_deque_some (α := T) k hk ts []
      (by simp)
    simpa using this
  refine ⟨hev, ?_, ?_, htr, ?_, ?_⟩
  · rw [hev, List.length_drop]
    omega
  · rw [handle_all_event_history]
    have := foldl_push_to_deque_none (α := E) es []
    simpa using this
  · rw [htr, List.length_drop]
    omega
  · rw [transition_all_transition_history]
    have := foldl_push_to_deque_none (α := T) ts []
    simpa using this

/-- Witness for C2 at the spec's own example: capacity 5, handled events
e1..e7, history is exactly the last five in order. -/
theorem bounded_history_eviction_witness :
    0 < 5
  ∧ (handle_all [1, 2, 3, 4, 5, 6, 7]
      (EventMonitor.new (some 5) (some 1)) :
        EventMonitor Nat Nat).event_history = [3, 4, 5, 6, 7] :=
  ⟨by decide,
    ((bounded_history_eviction 5 (by decide) [1, 2, 3, 4, 5, 6, 7] []
      (some 5) (some 1)).1).trans (by decide)⟩

/-- Claim C4: with event-history capacity `some 0` (and so starting empty),
after any interleaving of `event_sent`/`event_handled` calls the event
history is still empty, yet each call invoked every registered callback of
its kind exactly once, in registration order, passing it the event. -/
theorem zero_capacity_callbacks_still_fire (calls : List (SHCall E))
    (em : EventMonitor E T) (hcap : em.event_history_capacity = some 0)
    (hhist : em.event_history = []) :
    (run_sh calls em).1.event_history = []
  ∧ (run_sh calls em).2 = calls.map (fun c =>
      match c with
      | SHCall.sendEv e => em.event_sent_callbacks.map (fun i => (i, e))
      | SHCall.handleEv e =>
        em.event_handled_callbacks.map (fun i => (i, e))) := by
  induction calls generalizing em with
  | nil => exact ⟨hhist, rfl⟩
  | cons c rest ih =>
    cases c with
    | sendEv e =>
      have h := ih em hcap hhist
      exact ⟨h.1, by
        show (em.event_sent e).2 :: (run_sh rest em).2 = _
        rw [h.2]
        rfl⟩
    | handleEv e =>
      have hist1 : (em.event_handled e).1.event_history = [] := by
        simp [EventMonitor.event_handled, hcap, hhist, push_to_deque]
      have hcap1 : (em.event_handled e).1.event_history_capacity = some 0 :=
        hcap
      have h := ih (em.event_handled e).1 hcap1 hist1
      exact ⟨h.1, by
        show (em.event_handled e).2 :: (run_sh rest (em.event_handled e).1).2
            = _
        rw [h.2]
        rfl⟩

/-- Witness for C4: a monitor with zero event capacity and one callback of
each kind; a sent and a handled call leave the history empty and each fires
its registered callback once. -/
theorem zero_capacity_callbacks_still_fire_witness :
    (EventMonitor.mk (some 0) none [] [] [10] [20] [] :
        EventMonitor Nat Nat).event_history_capacity = some 0
  ∧ (run_sh [SHCall.sendEv 5, SHCall.handleEv 6]
      (EventMonitor.mk (some 0) none [] [] [10] [20] [] :
        EventMonitor Nat Nat)).1.event_history = []
  ∧ (run_sh [SHCall.sendEv 5, SHCall.handleEv 6]
      (EventMonitor.mk (some 0) none [] [] [10] [20] [] :
        EventMonitor Nat Nat)).2 = [[(10, 5)], [(20, 6)]] := by
  have h := zero_capacity_callbacks_still_fire
    [SHCall.sendEv 5, SHCall.handleEv 6]
    (EventMonitor.mk (some 0) none [] [] [10] [20] [] : EventMonitor Nat Nat)
    (by decide) (by decide)
  exact ⟨by decide, h.1, h.2.trans (by decide)⟩

/-- Claim C5: setting a history capacity to `some M` evicts exactly the
oldest `length - M` entries, preserving the order of the rest (so lowering
from `N` stored entries to `M < N` evicts the oldest `N - M`); when the
buffer already fits (`length ≤ M`, i.e. raising) or the capacity is set to
`none`, nothing is evicted and contents and order are preserved.  Both
streams behave identically. -/
theorem set_capacity_eviction (em : EventMonitor E T) (M : Nat) :
    ((em.set_event_history_capacity (some M)).event_history
        = em.event_history.drop (em.event_history.length - M))
  ∧ (em.event_history.length ≤ M →
      (em.set_event_history_capacity (some M)).event_history
        = em.event_history)
  ∧ ((em.set_event_history_capacity none).event_history = em.event_history)
  ∧ ((em.set_transition_history_capacity (some M)).transition_history
        = em.transition_history.drop (em.transition_history.length - M))
  ∧ (em.transition_history.length ≤ M →
      (em.set_transition_history_capacity (some M)).transition_history
        = em.transition_history)
  ∧ ((em.set_transition_history_capacity none).transition_history
        = em.transition_history) := by
  refine ⟨?_, ?_, rfl, ?_, ?_, rfl⟩
  · show resize_deque (some M) em.event_history = _
    rw [resize_deque, trim_front_eq_drop]
  · intro h
    show resize_deque (some M) em.event_history = _
    rw [resize_deque, trim_front_eq_drop]
    have : em.event_history.length - M = 0 := by omega
    rw [this, List.drop_zero]
  · show resize_deque (some M) em.transition_history = _
    rw [resize_deque, trim_front_eq_drop]
  · intro h
    show resize_deque (some M) em.transition_history = _
    rw [resize_deque, trim_front_eq_drop]
    have : em.transition_history.length - M = 0 := by omega
    rw [this, List.drop_zero]

/-- Witness for C5: lowering capacity from 3 stored entries to 2 evicts the
oldest entry; raising to 7 preserves the buffer. -/
theorem set_capacity_eviction_witness :
    ((EventMonitor.mk (some 5) (some 5) [1, 2, 3] [7, 8] [] [] [] :
        EventMonitor Nat Nat).set_event_history_capacity
          (some 2)).event_history = [2, 3]
  ∧ ((EventMonitor.mk (some 5) (some 5) [1, 2, 3] [7, 8] [] [] [] :
        EventMonitor Nat Nat).set_event_history_capacity
          (some 7)).event_history = [1, 2, 3] := by
  have h := set_capacity_eviction
    (EventMonitor.mk (some 5) (some 5) [1, 2, 3] [7, 8] [] [] [] :
      EventMonitor Nat Nat)
  exact ⟨(h 2).1.trans (by decide), (h 7).2.1 (by decide)⟩

/-- Claim C6: `last_transition()` is `none` exactly when the transition
history is empty; it is `none` on a fresh monitor, immediately after
`clear_transition_history()`, and after any operation sequence that leaves
the transition capacity at 0; otherwise `transition_occurred` makes it the
most recently recorded transition (for every non-zero capacity, i.e. also
when older entries have been evicted). -/
theorem last_transition_spec (em em2 : EventMonitor E T) (t : T)
    (ops : List (MonOp E T)) (ec tc : Option Nat) :
    (em.last_transition = none ↔ em.transition_history = [])
  ∧ ((EventMonitor.new ec tc : EventMonitor E T).last_transition = none)
  ∧ (em.clear_transition_history.last_transition = none)
  ∧ ((runOps ops (EventMonitor.new ec tc) :
        EventMonitor E T).transition_history_capacity = some 0 →
      (runOps ops (EventMonitor.new ec tc) :
        EventMonitor E T).last_transition = none)
  ∧ (em2.transition_history_capacity ≠ some 0 →
      (em2.transition_occurred t).1.last_transition = some t) := by
  refine ⟨getLast?_eq_none_iff_nil _, rfl, rfl, ?_, ?_⟩
  · intro hcap
    have hinv := (monInv_runOps ops (EventMonitor.new ec tc)
      (monInv_new ec tc)).2 0 hcap
    have : (runOps ops (EventMonitor.new ec tc) :
        EventMonitor E T).transition_history = [] :=
      List.length_eq_zero.mp (Nat.le_zero.mp hinv)
    rw [EventMonitor.last_transition, this]
    rfl
  · intro hne
    show (push_to_deque em2.transition_history_capacity
      em2.transition_history t).getLast? = some t
    cases hc : em2.transition_history_capacity with
    | none => rw [push_to_deque]; exact List.getLast?_concat _
    | some cap =>
      have hpos : 0 < cap := by
        rcases Nat.eq_zero_or_pos cap with h0 | h0
        · exact absurd (hc.trans (by rw [h0])) hne
        · exact h0
      rw [push_to_deque]
      simp only [hpos, if_true]
      exact List.getLast?_concat _

/-- Witness for C6: a monitor whose zero-capacity transition stream stays
empty after recording a transition, and a capacity-3 monitor (with a full,
partly evicted buffer) whose `last_transition` is the newest entry. -/
theorem last_transition_spec_witness :
    ((some 3 : Option Nat) ≠ some 0)
  ∧ ((EventMonitor.mk (some 0) (some 3) [] [7, 8, 9] [] [] [] :
        EventMonitor Nat Nat).transition_occurred 11).1.last_transition
      = some 11
  ∧ ((runOps [MonOp.transitionOccurred 5]
      (EventMonitor.new none (some 0)) :
        EventMonitor Nat Nat).last_transition = none) := by
  have h := last_transition_spec
    (EventMonitor.new none none : EventMonitor Nat Nat)
    (EventMonitor.mk (some 0) (some 3) [] [7, 8, 9] [] [] [])
    11 [MonOp.transitionOccurred 5] none (some 0)
  exact ⟨by decide, h.2.2.2.2 (by decide), h.2.2.2.1 (by decide)⟩

/-- Claim C7: `event_sent` invokes every registered event-sent callback in
registration order, passing it the event, and writes no history: the
monitor — in particular both history buffers — is unchanged. -/
theorem event_sent_no_history_write (em : EventMonitor E T) (e : E) :
    (em.event_sent e).2 = em.event_sent_callbacks.map (fun c => (c, e))
  ∧ (em.event_sent e).1.event_history = em.event_history
  ∧ (em.event_sent e).1.transition_history = em.transition_history
  ∧ (em.event_sent e).1 = em :=
  ⟨rfl, rfl, rfl, rfl⟩

/-- Claim C8: each clear operation empties its own buffer while leaving
that stream's capacity, the other stream's history and capacity, and all
three callback registries unchanged. -/
theorem clear_history_preserves_rest (em : EventMonitor E T) :
    (em.clear_event_history.event_history = []
      ∧ em.clear_event_history.event_history_capacity
          = em.event_history_capacity
      ∧ em.clear_event_history.transition_history = em.transition_history
      ∧ em.clear_event_history.transition_history_capacity
          = em.transition_history_capacity
      ∧ em.clear_event_history.event_sent_callbacks = em.event_sent_callbacks
      ∧ em.clear_event_history.event_handled_callbacks
          = em.event_handled_callbacks
      ∧ em.clear_event_history.transition_callbacks = em.transition_callbacks)
  ∧ (em.clear_transition_history.transition_history = []
      ∧ em.clear_transition_history.transition_history_capacity
          = em.transition_history_capacity
      ∧ em.clear_transition_history.event_history = em.event_history
      ∧ em.clear_transition_history.event_history_capacity
          = em.event_history_capacity
      ∧ em.clear_transition_history.event_sent_callbacks
          = em.event_sent_callbacks
      ∧ em.clear_transition_history.event_handled_callbacks
          = em.event_handled_callbacks
      ∧ em.clear_transition_history.transition_callbacks
          = em.transition_callbacks) :=
  ⟨⟨rfl, rfl, rfl, rfl, rfl, rfl, rfl⟩, ⟨rfl, rfl, rfl, rfl, rfl, rfl, rfl⟩⟩

/-- Claim C10: the bounded-history invariant — for every stream whose
capacity is `some k`, the buffer length is at most `k` — holds after any
sequence of `EventMonitor` operations (callback registration, sent/handled/
transition notifications, clears, and capacity changes in any
interleaving) starting from `new`. -/
theorem history_length_bound_invariant (ops : List (MonOp E T))
    (ec tc : Option Nat) (k : Nat) :
    ((runOps ops (EventMonitor.new ec tc) :
        EventMonitor E T).event_history_capacity = some k →
      (runOps ops (EventMonitor.new ec tc) :
        EventMonitor E T).event_history.length ≤ k)
  ∧ ((runOps ops (EventMonitor.new ec tc) :
        EventMonitor E T).transition_history_capacity = some k →
      (runOps ops (EventMonitor.new ec tc) :
        EventMonitor E T).transition_history.length ≤ k) := by
  have h := monInv_runOps ops (EventMonitor.new ec tc) (monInv_new ec tc)
  exact ⟨h.1 k, h.2 k⟩

/-- Claim C1: for the chained cascade A→B→C→D (each transition triggered
from its predecessor's enter handler) ending in a change-state D→A, the
event-sent notifications occur in exactly the required depth-first order
and the event-handled notifications in exactly the required stack-unwind
order; moreover every dispatched event yields exactly one sent and exactly
one handled notification, the handled one coming after all the work the
event caused (the trace of any successful dispatch is `sent e`, then the
nested work, then `handled e`). -/
theorem cascade_notification_order :
    ((dispatch 12 CState.A CEvent.trigger).map
        (fun r => (r.1, sentOf r.2, handledOf r.2))
      = some (CState.A,
          [CEvent.trigger, CEvent.exitEv CState.A, CEvent.enterEv CState.B,
           CEvent.trigger, CEvent.exitEv CState.B, CEvent.enterEv CState.C,
           CEvent.trigger, CEvent.exitEv CState.C, CEvent.enterEv CState.D,
           CEvent.trigger2],
          [CEvent.exitEv CState.A, CEvent.exitEv CState.B,
           CEvent.exitEv CState.C, CEvent.trigger2, CEvent.enterEv CState.D,
           CEvent.trigger, CEvent.enterEv CState.C, CEvent.trigger,
           CEvent.enterEv CState.B, CEvent.trigger]))
  ∧ (∀ fuel st e st3 trace, dispatch fuel st e = some (st3, trace) →
      ∃ body, trace = Notif.sentN e :: body ++ [Notif.handledN e]) := by
  constructor
  · decide
  · intro fuel st e st3 trace h
    cases fuel with
    | zero => simp [dispatch] at h
    | succ n =>
      simp only [dispatch] at h
      rw [Option.map_eq_some'] at h
      obtain ⟨⟨st2, body⟩, _, hf⟩ := h
      rw [Prod.mk.injEq] at hf
      exact ⟨body, hf.2.symm⟩

/-- Witness for C1: a bare exit sub-event dispatch is bracketed by its own
sent and handled notifications. -/
theorem cascade_notification_order_witness :
    ∃ body, ([Notif.sentN (CEvent.exitEv CState.A),
        Notif.handledN (CEvent.exitEv CState.A)] : List Notif)
      = Notif.sentN (CEvent.exitEv CState.A) :: body
          ++ [Notif.handledN (CEvent.exitEv CState.A)] :=
  cascade_notification_order.2 1 CState.A (CEvent.exitEv CState.A) CState.A
    [Notif.sentN (CEvent.exitEv CState.A),
      Notif.handledN (CEvent.exitEv CState.A)] (by decide)

/-- Claim C3: `push` duplicates the current StateInstance onto the stack
top without changing the current state; a `pop` of a stacked entry restores
exactly that StateInstance (bound argument and variable Environments
included) and fires an exit notification for the state being left and an
enter notification for the restored state; `pop_change` performs the
identical restoration firing neither; and iterated pops visit the saved
instances in exact LIFO (reverse-push) order. -/
theorem state_stack_push_pop_spec {S : Type} :
    (∀ m : StackMachine S, m.push.stack = m.current :: m.stack
        ∧ m.push.current = m.current ∧ m.push.tape = m.tape)
  ∧ (∀ (m : StackMachine S) (s : StateInstance S) rest,
        m.stack = s :: rest →
        m.pop.current = s ∧ m.pop.stack = rest
          ∧ m.pop.tape = m.tape ++ [StackNotif.exitN m.current.info,
              StackNotif.enterN s.info])
  ∧ (∀ (m : StackMachine S) (s : StateInstance S) rest,
        m.stack = s :: rest →
        m.pop_change.current = s ∧ m.pop_change.stack = rest
          ∧ m.pop_change.tape = m.tape)
  ∧ (∀ (m : StackMachine S) (i : Nat) (h : i < m.stack.length),
        (StackMachine.popN (i + 1) m).current = m.stack.get ⟨i, h⟩) := by
  refine ⟨fun m => ⟨rfl, rfl, rfl⟩, ?_, ?_, ?_⟩
  · intro m s rest h
    obtain ⟨cur, stk, tp⟩ := m
    simp only at h
    subst h
    exact ⟨rfl, rfl, rfl⟩
  · intro m s rest h
    obtain ⟨cur, stk, tp⟩ := m
    simp only at h
    subst h
    exact ⟨rfl, rfl, rfl⟩
  · intro m i
    induction i generalizing m with
    | zero =>
      intro h
      obtain ⟨cur, stk, tp⟩ := m
      cases stk with
      | nil => simp at h
      | cons a l => rfl
    | succ i ih =>
      intro h
      obtain ⟨cur, stk, tp⟩ := m
      cases stk with
      | nil => simp at h
      | cons a l =>
        have h2 : i < l.length := by
          simp only [List.length_cons] at h
          omega
        exact ih (StackMachine.pop (StackMachine.mk cur (a :: l) tp)) h2

/-- Witness for C3: popping restores the top stacked instance together with
its bound Environments. -/
theorem state_stack_push_pop_spec_witness :
    (StackMachine.pop
      (StackMachine.mk (StateInstance.mk 0 [] [])
        [StateInstance.mk 1 [("p", 2)] [("v", 3)], StateInstance.mk 2 [] []]
        []) : StackMachine Nat).current
      = StateInstance.mk 1 [("p", 2)] [("v", 3)] :=
  ((state_stack_push_pop_spec (S := Nat)).2.1
    (StackMachine.mk (StateInstance.mk 0 [] [])
      [StateInstance.mk 1 [("p", 2)] [("v", 3)], StateInstance.mk 2 [] []] [])
    (StateInstance.mk 1 [("p", 2)] [("v", 3)])
    [StateInstance.mk 2 [] []] (by decide)).1

/-- Claim C9: Environment lookup is total and never errors — for every
`FrameEventArgs` environment and every name it returns either a value
reference or "not found"; a name absent from the environment (not among
the variant's bound argument names) yields `none` rather than any fault,
a bound name yields its value, and likewise for `IncArgs`. -/
theorem lookup_total_never_errors (fa : FrameEventArgs) (a : IncArgs)
    (name : String) :
    ((∃ v, fa.lookup name = some v) ∨ fa.lookup name = none)
  ∧ (name ∉ fa.argNames → fa.lookup name = none)
  ∧ (name ∈ fa.argNames → ∃ v, fa.lookup name = some v)
  ∧ (name ≠ "arg" → a.lookup name = none)
  ∧ (a.lookup "arg" = some a.arg) := by
  refine ⟨?_, ?_, ?_, ?_, ?_⟩
  · cases h : fa.lookup name with
    | some v => exact Or.inl ⟨v, rfl⟩
    | none => exact Or.inr rfl
  · intro hn
    cases fa <;> simp_all [FrameEventArgs.lookup, FrameEventArgs.argNames,
      EMPTY_lookup, IncArgs.lookup, FooEnterArgs.lookup, FooExitArgs.lookup,
      BarEnterArgs.lookup, BarExitArgs.lookup]
  · intro hm
    cases fa <;> simp_all [FrameEventArgs.lookup, FrameEventArgs.argNames,
      EMPTY_lookup, IncArgs.lookup, FooEnterArgs.lookup, FooExitArgs.lookup,
      BarEnterArgs.lookup, BarExitArgs.lookup]
  · intro h
    simp [IncArgs.lookup, h]
  · simp [IncArgs.lookup]

/-- Witness for C9: looking up an unknown name yields "not found" and a
bound name yields its value. -/
theorem lookup_total_never_errors_witness :
    ("zzz" : String) ≠ "arg"
  ∧ (FrameEventArgs.inc (IncArgs.mk 5)).lookup "zzz" = none
  ∧ (IncArgs.mk 7).lookup "arg" = some 7 := by
  have h := lookup_total_never_errors (FrameEventArgs.inc (IncArgs.mk 5))
    (IncArgs.mk 7) "zzz"
  exact ⟨by decide, h.2.1 (by decide), h.2.2.2.2⟩

/-- Witness for C10: three events handled at capacity 2 leave at most two
entries. -/
theorem history_length_bound_invariant_witness :
    ((runOps [MonOp.eventHandled 1, MonOp.eventHandled 2,
        MonOp.eventHandled 3] (EventMonitor.new (some 2) none) :
      EventMonitor Nat Nat).event_history_capacity = some 2)
  ∧ ((runOps [MonOp.eventHandled 1, MonOp.eventHandled 2,
        MonOp.eventHandled 3] (EventMonitor.new (some 2) none) :
      EventMonitor Nat Nat).event_history.length ≤ 2) :=
  ⟨by decide,
    (history_length_bound_invariant [MonOp.eventHandled 1,
      MonOp.eventHandled 2, MonOp.eventHandled 3] (some 2) none 2).1
      (by decide)⟩

end FrameRt
